import Mathlib

/-!
Verification of the `tabulate_solar.py` report parser and table builder.

The Python source is embedded shallowly: each Python function becomes a Lean
definition of the same name, text streams become `List String` (one element
per line, without trailing newline), Python dictionaries (which preserve
insertion order and update values in place) become association lists with
the operations `odGet` / `odUpdate` / `odErase`, and exceptions become
`Except PyError` / `Option` results.  The regular expressions of the source
are modelled by explicit greedy matchers over `List Char`; each matcher is
documented with the regex it embeds and the backtracking analysis that
justifies the deterministic implementation.
-/

namespace TabulateSolar

/-! ## Ordered dictionaries (Python `dict` / `collections.OrderedDict`)

A Python dict preserves insertion order; assigning to an existing key
replaces its value in place (keeping its position), assigning to a new key
appends it.  `odGet` is `dict.get` (first — unique — binding). -/

def odGet {α β : Type} [DecidableEq α] : List (α × β) → α → Option β
  | [], _ => none
  | p :: t, k => if p.1 = k then some p.2 else odGet t k

def odUpdate {α β : Type} [DecidableEq α] : List (α × β) → α → β → List (α × β)
  | [], k, v => [(k, v)]
  | p :: t, k, v => if p.1 = k then (k, v) :: t else p :: odUpdate t k v

def odErase {α β : Type} [DecidableEq α] : List (α × β) → α → List (α × β)
  | [], _ => []
  | p :: t, k => if p.1 = k then odErase t k else p :: odErase t k

/-! ## Data model -/

/-- One statistical finding: the value record stored in `values[(name, trait)]`
by `read_polygenic_out_value`.  Fields mirror the Python dict literal
(`estimated`, `value`, `pvalue`, `stderr`, `different`). -/
structure ValueRecord where
  estimated : Bool
  value : String
  pvalue : Option String
  stderr : Option String
  different : List (String × String)
  deriving Repr, DecidableEq

abbrev Metadata := List (String × List String)

abbrev ValKey := String × Option String

abbrev Values := List (ValKey × ValueRecord)

/-- The per-file structured result returned by `read_polygenic_out`
(after `metadata.pop("Trait")`). -/
structure Report where
  metadata : Metadata
  traits : List String
  values : Values
  deriving Repr, DecidableEq

/-- One output row: ordered mapping from column key to cell
(`none` = absent, rendered as the NA value). -/
abbrev Row := List (String × Option String)

/-- Errors raised while processing one file.  The first four correspond to the
`raise ParseError(...)` sites of the source (they are caught and classified at
the file-processing boundary in `main`); `keyError` models the bare Python
`KeyError` raised by `values[(name, trait)]` in the difference-test branch,
which is NOT a `ParseError` and escapes the classified handling. -/
inductive PyError where
  | incompleteRun
  | noMetadata
  | missingTraitLabel
  | orphanStdError
  | keyError
  deriving Repr, DecidableEq

/-- Whether an error is one of the classified per-file parse errors
(`ParseError` subclasses caught by `except ParseError` in `main`). -/
def PyError.isParseError : PyError → Bool
  | .keyError => false
  | _ => true

instance {ε α : Type} [DecidableEq ε] [DecidableEq α] : DecidableEq (Except ε α) := fun a b =>
  match a, b with
  | .error e, .error f =>
    if h : e = f then isTrue (congrArg Except.error h)
    else isFalse (fun hc => h (by injection hc))
  | .ok x, .ok y =>
    if h : x = y then isTrue (congrArg Except.ok h)
    else isFalse (fun hc => h (by injection hc))
  | .error _, .ok _ => isFalse (fun hc => Except.noConfusion hc)
  | .ok _, .error _ => isFalse (fun hc => Except.noConfusion hc)

/-! ## Python string primitives

Re-implemented structurally over `List Char` so that every definition
evaluates by kernel reduction. -/

/-- Python `str.strip()`: drop leading and trailing whitespace. -/
def pyStrip (l : List Char) : List Char :=
  ((l.dropWhile Char.isWhitespace).reverse.dropWhile Char.isWhitespace).reverse

def pyStripStr (s : String) : String := String.mk (pyStrip s.toList)

/-- Helper for `pySplit`: accumulates the current (reversed) token. -/
def pySplitGo (acc : List Char) : List Char → List (List Char)
  | [] => if acc.isEmpty then [] else [acc.reverse]
  | c :: rest =>
    if c.isWhitespace then
      if acc.isEmpty then pySplitGo [] rest
      else acc.reverse :: pySplitGo [] rest
    else pySplitGo (c :: acc) rest

/-- Python `str.split()` with no argument: split on whitespace runs,
dropping empty tokens. -/
def pySplit (l : List Char) : List (List Char) := pySplitGo [] l

/-- Python `line.replace("    ", "\t")`: left-to-right replacement of
non-overlapping four-space runs by a tab. -/
def replaceFourSpaces : List Char → List Char
  | ' ' :: ' ' :: ' ' :: ' ' :: rest => '\t' :: replaceFourSpaces rest
  | c :: rest => c :: replaceFourSpaces rest
  | [] => []

/-- Python `str.startswith`. -/
def pyStartsWith (s p : String) : Bool := List.isPrefixOf p.toList s.toList

/-- Helper for `pyTitle`: the Bool records whether the previous character
was alphabetic (cased). -/
def pyTitleGo : Bool → List Char → List Char
  | _, [] => []
  | prevAlpha, c :: cs =>
    (if c.isAlpha then (if prevAlpha then c.toLower else c.toUpper) else c)
      :: pyTitleGo c.isAlpha cs

/-- Python `str.title()`: first letter of each alphabetic run uppercased,
the rest lowercased ("zero" becomes "Zero", "1.0" stays "1.0"). -/
def pyTitle (s : String) : String := String.mk (pyTitleGo false s.toList)

/-- Python `" ".join(v)`. -/
def joinSpace : List String → String
  | [] => ""
  | [t] => t
  | t :: ts => t ++ " " ++ joinSpace ts

/-! ## Metadata block parser (`read_polygenic_out_header`) -/

def sentinelLine : String := "The last run of polygenic did not run to completion."

/-- One token of a metadata line.  State: (mapping so far, most recently
opened label on this line).  A token ending in ":" opens that label with a
FRESH empty list (`last_value = metadata[last_key] = []` — note this
discards tokens collected for an earlier occurrence of the same label);
any other token is appended to the currently open label's list, or dropped
when no label is open on this line. -/
def procToken (st : Metadata × Option String) (tok : List Char) : Metadata × Option String :=
  if tok.getLast? = some ':' then
    let k := String.mk tok.dropLast
    (odUpdate st.1 k [], some k)
  else
    match st.2 with
    | none => st
    | some k => (odUpdate st.1 k ((odGet st.1 k).getD [] ++ [String.mk tok]), some k)

/-- One metadata line: `last_value = None` is reset at the start of each
line, then every whitespace-separated token is processed in order. -/
def procMetaLine (md : Metadata) (line : List Char) : Metadata :=
  ((pySplit line).foldl procToken (md, none)).1

/-- The `while line:` loop of `read_polygenic_out_header`: consume stripped
lines until the first blank (or end of stream), returning the collected
mapping and the remaining lines. -/
def collectMetadata : Metadata → List String → Metadata × List String
  | md, [] => (md, [])
  | md, l :: rest =>
    let line := pyStrip l.toList
    if line.isEmpty then (md, rest)
    else collectMetadata (procMetaLine md line) rest

/-- `read_polygenic_out_header`: sentinel check on the (stripped) first
line, then the metadata loop, then the two postcondition checks. -/
def read_polygenic_out_header (lines : List String) :
    Except PyError (Metadata × List String) :=
  if pyStripStr (lines.headD "") = sentinelLine then .error .incompleteRun
  else if (collectMetadata [] lines).1.isEmpty then .error .noMetadata
  else if (odGet (collectMetadata [] lines).1 "Trait").isNone then .error .missingTraitLabel
  else .ok (collectMetadata [] lines)

/-! ## Regex models

Each Python regex is matched with `re.match` (anchored at the start of the
string, free at the end).  Greedy `(.+)` groups are resolved by trying every
split of the line, longest prefix first: `splits l` lists all decompositions
`l = pre ++ suf` in order of increasing `pre`, and the matchers scan
`(splits l).reverse`, so the first accepted split is the one with the
longest group 1 — exactly the backtracking order of the regex engine. -/

/-- All decompositions `l = pre ++ suf`, shortest prefix first. -/
def splits : List Char → List (List Char × List Char)
  | [] => [([], [])]
  | c :: cs => ([], c :: cs) :: (splits cs).map (fun p => (c :: p.1, p.2))

/-- The numeric-token character class `[-+\d\.eE]` shared by all three
statement regexes. -/
def isNumChar (c : Char) : Bool :=
  c == '-' || c == '+' || c.isDigit || c == '.' || c == 'e' || c == 'E'

/-- Greedy `([-+\d\.eE]+)`: the maximal nonempty run of numeric characters,
together with the remainder.  (Since the numeric class and `\s` are
disjoint, the regex engine never profits from shortening this run, so the
maximal run is the captured group.) -/
def takeNum (l : List Char) : Option (List Char × List Char) :=
  match l.takeWhile isNumChar with
  | [] => none
  | run => some (run, l.dropWhile isNumChar)

/-- Greedy `\s+`: requires at least one whitespace character and consumes
the maximal run.  (All uses are followed by a non-whitespace literal, so
the engine never profits from a shorter run.) -/
def skipWs1 (l : List Char) : Option (List Char) :=
  match l with
  | c :: rest => if c.isWhitespace then some (rest.dropWhile Char.isWhitespace) else none
  | [] => none

/-- The optional suffix `(?:\s+p\s+=\s+([-+\d\.eE]+))?` of
`_RE_VARIABLE_IS`; returns the captured p-value when it matches. -/
def tryPvalue (l : List Char) : Option (List Char) :=
  match skipWs1 l with
  | none => none
  | some l1 =>
    match l1 with
    | 'p' :: l2 =>
      (match skipWs1 l2 with
       | none => none
       | some l3 =>
         match l3 with
         | '=' :: l4 =>
           (match skipWs1 l4 with
            | none => none
            | some l5 =>
              match takeNum l5 with
              | none => none
              | some (num, _) => some num)
         | _ => none)
    | _ => none

/-- The part of `_RE_VARIABLE_IS` after group 1: literal `" is "`, then the
numeric value, then the optional p-value suffix. -/
def variableIsTail (suf : List Char) : Option (List Char × Option (List Char)) :=
  match suf with
  | ' ' :: 'i' :: 's' :: ' ' :: rest =>
    (match takeNum rest with
     | none => none
     | some (num, rest2) => some (num, tryPvalue rest2))
  | _ => none

/-- `_RE_VARIABLE_IS = ^(.+) is ([-+\d\.eE]+)(?:\s+p\s+=\s+([-+\d\.eE]+))?`
matched against the start of the line; returns (name, value, pvalue?). -/
def matchVariableIs (l : List Char) :
    Option (List Char × List Char × Option (List Char)) :=
  ((splits l).reverse.filterMap (fun pr =>
    if pr.1.isEmpty then none
    else (variableIsTail pr.2).map (fun vp => (pr.1, vp.1, vp.2)))).head?

/-- The part of `_RE_STD_ERROR` after group 1: `\s+Std. Error:\s+NUM`.
When group 1 is maximal, `\s+` consumes exactly one whitespace character
(a longer run would allow group 1 to grow), and the `.` of `"Std. Error"`
is the regex any-character. -/
def stdErrorTail (suf : List Char) : Option (List Char) :=
  match suf with
  | w :: 'S' :: 't' :: 'd' :: _ :: ' ' :: 'E' :: 'r' :: 'r' :: 'o' :: 'r' :: ':' :: rest =>
    if w.isWhitespace then
      match skipWs1 rest with
      | none => none
      | some rest2 =>
        match takeNum rest2 with
        | none => none
        | some (num, _) => some num
    else none
  | _ => none

/-- `_RE_STD_ERROR = ^(.+)\s+Std. Error:\s+([-+\d\.eE]+)`;
returns (name, stderr value). -/
def matchStdError (l : List Char) : Option (List Char × List Char) :=
  ((splits l).reverse.filterMap (fun pr =>
    if pr.1.isEmpty then none
    else (stdErrorTail pr.2).map (fun num => (pr.1, num)))).head?

/-- The `\s+p = NUM` tail after the comparator of `_RE_DIFFERENT_FROM`
(note: single literal spaces around `=` in this regex). -/
def diffPvalue (comp : List Char) (r : List Char) : Option (List Char × List Char) :=
  match skipWs1 r with
  | none => none
  | some r2 =>
    match r2 with
    | 'p' :: ' ' :: '=' :: ' ' :: r3 =>
      (match takeNum r3 with
       | none => none
       | some (num, _) => some (comp, num))
    | _ => none

/-- The alternation `(zero|1.0)` (the `.` in `1.0` is the regex
any-character) followed by the p-value tail.  The two alternatives start
with distinct characters, so no backtracking between them is possible. -/
def diffComparatorTail (r : List Char) : Option (List Char × List Char) :=
  match r with
  | 'z' :: 'e' :: 'r' :: 'o' :: r2 => diffPvalue ['z', 'e', 'r', 'o'] r2
  | '1' :: c :: '0' :: r2 => diffPvalue ['1', c, '0'] r2
  | _ => none

/-- The part of `_RE_DIFFERENT_FROM` after group 1: literal
`" different from"`, then `\s+`, the comparator, and the p-value. -/
def differentFromTail (suf : List Char) : Option (List Char × List Char) :=
  match suf with
  | ' ' :: 'd' :: 'i' :: 'f' :: 'f' :: 'e' :: 'r' :: 'e' :: 'n' :: 't' ::
      ' ' :: 'f' :: 'r' :: 'o' :: 'm' :: rest =>
    (match skipWs1 rest with
     | none => none
     | some r => diffComparatorTail r)
  | _ => none

/-- `_RE_DIFFERENT_FROM = ^(.+) different from\s+(zero|1.0)\s+p = ([-+\d\.eE]+)`;
returns (name, comparator, pvalue). -/
def matchDifferentFrom (l : List Char) :
    Option (List Char × List Char × List Char) :=
  ((splits l).reverse.filterMap (fun pr =>
    if pr.1.isEmpty then none
    else (differentFromTail pr.2).map (fun cp => (pr.1, cp.1, cp.2)))).head?

/-- Group 2 of `_RE_NAME_AND_TRAIT`: the longest nonempty prefix of `rest`
followed by a `')'` (greedy `(.+)` before the final `\)`). -/
def lastParenGroup (rest : List Char) : Option (List Char) :=
  ((splits rest).reverse.filterMap (fun pr =>
    if pr.1.isEmpty then none
    else
      match pr.2 with
      | ')' :: _ => some pr.1
      | _ => none)).head?

/-- `_RE_NAME_AND_TRAIT = (.+)\((.+)\)` via `re.match`: group 1 extends to
the last `'('` that still leaves a nonempty group 2 followed by a `')'`;
trailing text after that `')'` is ignored. -/
def matchNameAndTrait (l : List Char) : Option (List Char × List Char) :=
  ((splits l).reverse.filterMap (fun pr =>
    if pr.1.isEmpty then none
    else
      match pr.2 with
      | '(' :: rest => (lastParenGroup rest).map (fun t => (pr.1, t))
      | _ => none)).head?

/-! ## Statement parser (`parse_name`, `read_polygenic_out_value`) -/

/-- `parse_name`: `X(Y)` resolves to `(X, Y)`; a bare name resolves to the
sole trait of a single-trait run, or to no trait otherwise. -/
def parse_name (name : String) (traits : List String) : String × Option String :=
  match matchNameAndTrait name.toList with
  | some bt => (String.mk bt.1, some (String.mk bt.2))
  | none =>
    match traits with
    | [t] => (name, some t)
    | _ => (name, none)

def derivedEstimatePrefix : String := "Derived Estimate of "

/-- One iteration of the `for line in handle` loop of
`read_polygenic_out_value`.  A line is admitted only if, after replacing
four-space runs by tabs, it starts with two tabs; admitted lines are
stripped and the three statement shapes are tried in order. -/
def processLine (traits : List String) (values : Values) (rawLine : String) :
    Except PyError Values :=
  if !(List.isPrefixOf ['\t', '\t'] (replaceFourSpaces rawLine.toList)) then .ok values
  else
    let l := pyStrip rawLine.toList
    match matchVariableIs l with
    | some nvp =>
      let nt := parse_name (String.mk nvp.1) traits
      let est := pyStartsWith nt.1 derivedEstimatePrefix
      let name := if est then String.mk (nt.1.toList.drop 20) else nt.1
      .ok (odUpdate values (name, nt.2)
        ⟨est, String.mk nvp.2.1, nvp.2.2.map String.mk, none, []⟩)
    | none =>
      match matchStdError l with
      | some nv =>
        let nt := parse_name (String.mk nv.1) traits
        (match odGet values nt with
         | none => .error .orphanStdError
         | some cur =>
           .ok (odUpdate values nt
             ⟨cur.estimated, cur.value, cur.pvalue, some (String.mk nv.2), cur.different⟩))
      | none =>
        match matchDifferentFrom l with
        | some ncp =>
          let nt := parse_name (String.mk ncp.1) traits
          (match odGet values nt with
           | none => .error .keyError
           | some cur =>
             .ok (odUpdate values nt
               ⟨cur.estimated, cur.value, cur.pvalue, cur.stderr,
                cur.different ++ [(String.mk ncp.2.1, String.mk ncp.2.2)]⟩))
        | none => .ok values

/-- `read_polygenic_out_value`: fold the statement-line loop over the lines
remaining after the metadata block, with the trait list `metadata["Trait"]`. -/
def read_polygenic_out_value (lines : List String) (metadata : Metadata) :
    Except PyError Values :=
  lines.foldlM (processLine ((odGet metadata "Trait").getD [])) []

/-- `read_polygenic_out` (stream part): header, then values, then the
report with `"Trait"` popped out of the metadata into `traits`. -/
def read_polygenic_out (lines : List String) : Except PyError Report :=
  match read_polygenic_out_header lines with
  | .error e => .error e
  | .ok mr =>
    match read_polygenic_out_value mr.2 mr.1 with
    | .error e => .error e
    | .ok values =>
      .ok ⟨odErase mr.1 "Trait", (odGet mr.1 "Trait").getD [], values⟩

/-! ## Table builder (`build_table`, `build_header`) and output formatting

`build_table` can crash in Python: `row["traits"].index(trait)` raises
`ValueError` when a trait named in a value key is not in the report's trait
list, and `traits[idx]` raises `IndexError` past the 26-letter alphabet.
Neither is a `ParseError`; both are modelled as `Option.none` results (the
classified parse errors live in `Except PyError` at the parsing stage). -/

def asciiUppercase : List Char := "ABCDEFGHIJKLMNOPQRSTUVWXYZ".toList

/-- Python `list.index` (`ValueError` becomes `none`). -/
def listIndex (l : List String) (x : String) : Option Nat :=
  l.findIdx? (fun y => y == x)

/-- `itertools.zip_longest(traits, row["traits"])` where the first argument
is the (sliced) letter string: pairs letters with trait names, padding
missing trait names with `none`.  When the trait names outrun the letters
Python would produce a `None` dict key, which no later stage tolerates;
this is modelled as failure. -/
def zipLongestRow : List Char → List String → Option (List (String × Option String))
  | [], [] => some []
  | k :: ks, [] => (zipLongestRow ks []).map (fun r => (String.mk [k], none) :: r)
  | [], _ :: _ => none
  | k :: ks, v :: vs => (zipLongestRow ks vs).map (fun r => (String.mk [k], some v) :: r)

/-- The body of the `for (name, trait), values in row["values"].items()`
loop: compute the column base key (`name`, plus `".est"` when estimated,
both overridden by `name + "." + letter` when a trait is present), then
emit value, stderr, pvalue and one `.pNot...` column per difference test. -/
def flattenValue (letters : List Char) (rtraits : List String) (row : Row)
    (kv : ValKey × ValueRecord) : Option Row :=
  let name := kv.1.1
  let v := kv.2
  let key0 := name
  let key1 := if v.estimated then key0 ++ ".est" else key0
  let okey : Option String :=
    match kv.1.2 with
    | none => some key1
    | some t =>
      match listIndex rtraits t with
      | none => none
      | some idx =>
        match letters.get? idx with
        | none => none
        | some c => some (name ++ "." ++ String.mk [c])
  match okey with
  | none => none
  | some key =>
    let r1 := odUpdate row key (some v.value)
    let r2 := odUpdate r1 (key ++ ".stderr") v.stderr
    let r3 := odUpdate r2 (key ++ ".pvalue") v.pvalue
    some (v.different.foldl
      (fun r cp => odUpdate r (key ++ ".pNot" ++ pyTitle cp.1) (some cp.2)) r3)

/-- Row construction for one report: seed with letter/trait pairs, append
the joined metadata labels, then flatten every value record in insertion
order. -/
def buildRow (letters : List Char) (r : Report) : Option Row :=
  match zipLongestRow letters r.traits with
  | none => none
  | some pairs =>
    let seeded := pairs.foldl (fun row kv => odUpdate row kv.1 kv.2) ([] : Row)
    let withMeta :=
      r.metadata.foldl (fun row kv => odUpdate row kv.1 (some (joinSpace kv.2))) seeded
    r.values.foldlM (flattenValue letters r.traits) withMeta

/-- Pass 1 of `build_table`: the maximum trait count over all reports
(`max(..., default=0)`). -/
def numTraits (rows : List Report) : Nat :=
  (rows.map (fun r => r.traits.length)).foldl max 0

/-- `build_table`: the shared letter alphabet, then one row per report in
input order. -/
def build_table (rows : List Report) : Option (List Row) :=
  rows.mapM (buildRow (asciiUppercase.take (numTraits rows)))

/-- One step of the header fold: the Python line
`header[key] = header.get(key, 0) + 0 if value is None else 1`, which by
precedence is `(header.get(key, 0) + 0) if (value is None) else 1`. -/
def hdrStep (h : List (String × Nat)) (kv : String × Option String) :
    List (String × Nat) :=
  odUpdate h kv.1 (if kv.2.isNone then (odGet h kv.1).getD 0 else 1)

/-- `build_header`: count keys over all rows in order, then keep (in
first-seen order) the keys whose count is non-zero. -/
def build_header (table : List Row) : List String :=
  ((table.foldl (fun h row => row.foldl hdrStep h) []).filter
      (fun kv => kv.2 != 0)).map Prod.fst

/-- The output substitution of `main`: `row.get(key)` with `None` replaced
by the configured NA value. -/
def formatCell (naValue : String) (cell : Option String) : String :=
  match cell with
  | none => naValue
  | some v => v

/-- One output line of `main`: each header key looked up in the row
(`row.get` yields `None` both for a missing key and for an absent value). -/
def formatRow (naValue : String) (header : List String) (row : Row) : List String :=
  header.map (fun k => formatCell naValue ((odGet row k).getD none))

/-! ## Specification-side definitions

These follow the wording of the specification (they are compared against
the embedded code by the theorems below). -/

/-- Some binding of this row uses key `k`. -/
def rowHasKey (row : Row) (k : String) : Bool :=
  row.any (fun kv => kv.1 == k)

/-- Some binding of this row gives key `k` a non-absent value. -/
def rowHasValueAt (row : Row) (k : String) : Bool :=
  row.any (fun kv => kv.1 == k && kv.2.isSome)

/-- Key `k` appears in some row of the table. -/
def tableHasKey (table : List Row) (k : String) : Bool :=
  table.any (fun row => rowHasKey row k)

/-- Spec §4.4: "at least one row has a non-absent value" for key `k`. -/
def hasValue (table : List Row) (k : String) : Bool :=
  table.any (fun row => rowHasValueAt row k)

/-- Append the keys of one row to an accumulator in first-seen order. -/
def addKeysFirstSeen : List String → Row → List String
  | acc, [] => acc
  | acc, kv :: row => addKeysFirstSeen (if kv.1 ∈ acc then acc else acc ++ [kv.1]) row

/-- All keys of the table, each at the position of its first appearance
across the rows scanned in order. -/
def firstSeenKeys (table : List Row) : List String :=
  table.foldl addKeysFirstSeen []

/-- Spec §4.4 pass 2: the cells emitted for one value record, as the spec
states them — `key → value`, `key.stderr → stderr`, `key.pvalue → pvalue`,
then `key.pNot<TitleCase comparator> → pvalue` per difference test in
order. -/
def specEmitRecord (row : Row) (key : String) (v : ValueRecord) : Row :=
  v.different.foldl
    (fun r cp => odUpdate r (key ++ ".pNot" ++ pyTitle cp.1) (some cp.2))
    (odUpdate (odUpdate (odUpdate row key (some v.value))
      (key ++ ".stderr") v.stderr) (key ++ ".pvalue") v.pvalue)

/-! ## Concrete inputs used by individual claims -/

/-- Claim C4's well-formed input file. -/
def c4Lines : List String :=
  ["Trait: T1 T2", "",
   "\t\tH2r(T1) is 0.5  p = 0.01",
   "\t\tH2r(T1) Std. Error:  0.05",
   "\t\tH2r(T2) is 0.7"]

/-- Claim C4's expected single row. -/
def c4Row : Row :=
  [("A", some "T1"), ("B", some "T2"),
   ("H2r.A", some "0.5"), ("H2r.A.stderr", some "0.05"), ("H2r.A.pvalue", some "0.01"),
   ("H2r.B", some "0.7"), ("H2r.B.stderr", none), ("H2r.B.pvalue", none)]

/-- Claim C9's input: an assignment whose explicit trait is not among the
run's traits. -/
def c9Lines : List String := ["Trait: T1 T2", "", "\t\tH2r(Bogus) is 0.5"]

def c9Record : ValueRecord := ⟨false, "0.5", none, none, []⟩

/-- The report the parser accepts for `c9Lines`. -/
def c9Report : Report := ⟨[], ["T1", "T2"], [(("H2r", some "Bogus"), c9Record)]⟩

/-- Claim C6's witness record: explicit trait, one difference test. -/
def c6Record : ValueRecord := ⟨false, "0.7", none, none, [("zero", "0.03")]⟩

/-- Claim C10's input: the label `Empty:` is collected with zero value
tokens. -/
def c10Lines : List String := ["Trait: T1", "Empty:"]

def c10Report : Report := ⟨[("Empty", [])], ["T1"], []⟩

def c10Row : Row := [("A", some "T1"), ("Empty", some "")]

/-! ## Ordered-dictionary lemmas -/

theorem odGet_update_self {α β : Type} [DecidableEq α] (m : List (α × β)) (k : α) (v : β) :
    odGet (odUpdate m k v) k = some v := by
  induction m with
  | nil => simp [odUpdate, odGet]
  | cons p t ih =>
    by_cases h : p.1 = k
    · simp [odUpdate, h, odGet]
    · simp [odUpdate, h, odGet, ih]

theorem odGet_update_ne {α β : Type} [DecidableEq α] (m : List (α × β)) (k k' : α) (v : β)
    (h : k' ≠ k) : odGet (odUpdate m k v) k' = odGet m k' := by
  induction m with
  | nil => simp [odUpdate, odGet, Ne.symm h]
  | cons p t ih =>
    by_cases hp : p.1 = k
    · simp [odUpdate, odGet, hp, Ne.symm h]
    · by_cases hq : p.1 = k' <;> simp [odUpdate, odGet, hp, hq, ih, h]

theorem keys_update {α β : Type} [DecidableEq α] (m : List (α × β)) (k : α) (v : β) :
    (odUpdate m k v).map Prod.fst =
      if k ∈ m.map Prod.fst then m.map Prod.fst else m.map Prod.fst ++ [k] := by
  induction m with
  | nil => simp [odUpdate]
  | cons p t ih =>
    by_cases h : p.1 = k
    · simp [odUpdate, h]
    · by_cases hm : k ∈ t.map Prod.fst <;>
        simp [odUpdate, h, ih, hm, Ne.symm h]

theorem odGet_isSome_iff {α β : Type} [DecidableEq α] (m : List (α × β)) (k : α) :
    (odGet m k).isSome = true ↔ k ∈ m.map Prod.fst := by
  induction m with
  | nil => simp [odGet]
  | cons p t ih =>
    by_cases h : p.1 = k
    · subst h; simp [odGet]
    · have h' : ¬ k = p.1 := fun hc => h hc.symm
      simp only [odGet, List.map_cons, List.mem_cons]
      rw [if_neg h, ih]
      simp [h']

theorem keys_update_nodup {α β : Type} [DecidableEq α] (m : List (α × β)) (k : α) (v : β)
    (h : (m.map Prod.fst).Nodup) : ((odUpdate m k v).map Prod.fst).Nodup := by
  rw [keys_update]
  by_cases hm : k ∈ m.map Prod.fst
  · simpa [hm] using h
  · simp only [hm, if_false]
    simp [List.nodup_append, h, hm]

theorem odGet_mem_of_nodup {α β : Type} [DecidableEq α] (m : List (α × β))
    (hnd : (m.map Prod.fst).Nodup) (p : α × β) (hp : p ∈ m) : odGet m p.1 = some p.2 := by
  induction m with
  | nil => cases hp
  | cons q t ih =>
    rcases List.mem_cons.mp hp with h | h
    · subst h; simp [odGet]
    · have hq : q.1 ≠ p.1 := by
        intro he
        have : p.1 ∈ t.map Prod.fst := List.mem_map_of_mem Prod.fst h
        rw [← he] at this
        exact (List.nodup_cons.mp (by simpa using hnd)).1 this
      simp [odGet, hq, ih (List.nodup_cons.mp (by simpa using hnd)).2 h]

/-! ## Header-fold lemmas -/

theorem rowHasKey_cons (kv : String × Option String) (row : Row) (k : String) :
    rowHasKey (kv :: row) k = ((kv.1 == k) || rowHasKey row k) := by
  simp [rowHasKey]

theorem rowHasValueAt_cons (kv : String × Option String) (row : Row) (k : String) :
    rowHasValueAt (kv :: row) k = ((kv.1 == k && kv.2.isSome) || rowHasValueAt row k) := by
  simp [rowHasValueAt]

theorem rowHasKey_of_rowHasValueAt (row : Row) (k : String)
    (h : rowHasValueAt row k = true) : rowHasKey row k = true := by
  simp only [rowHasValueAt, List.any_eq_true, Bool.and_eq_true] at h
  obtain ⟨kv, hmem, hk, _⟩ := h
  simp only [rowHasKey, List.any_eq_true]
  exact ⟨kv, hmem, hk⟩

theorem foldRow_get (row : Row) : ∀ (h : List (String × Nat)) (k : String),
    odGet (row.foldl hdrStep h) k =
      if rowHasValueAt row k then some 1
      else if rowHasKey row k then some ((odGet h k).getD 0)
      else odGet h k := by
  induction row with
  | nil => intro h k; simp [rowHasValueAt, rowHasKey]
  | cons kv row ih =>
    intro h k
    rw [List.foldl_cons, ih, rowHasValueAt_cons, rowHasKey_cons]
    by_cases hk : kv.1 = k
    · cases hv : kv.2 with
      | none =>
        have hstep : odGet (hdrStep h kv) k = some ((odGet h k).getD 0) := by
          simp [hdrStep, hv, hk, odGet_update_self]
        by_cases hA : rowHasValueAt row k = true
        · simp [hA, hk, hv]
        · by_cases hB : rowHasKey row k = true <;>
            simp [hA, hB, hk, hv, hstep]
      | some w =>
        have hstep : odGet (hdrStep h kv) k = some 1 := by
          simp [hdrStep, hv, hk, odGet_update_self]
        by_cases hA : rowHasValueAt row k = true
        · simp [hA, hk, hv]
        · by_cases hB : rowHasKey row k = true <;>
            simp [hA, hB, hk, hv, hstep]
    · have hne : k ≠ kv.1 := fun hc => hk hc.symm
      have hstep : odGet (hdrStep h kv) k = odGet h k :=
        odGet_update_ne h kv.1 k _ hne
      have hbeq : (kv.1 == k) = false := by
        simp [hk]
      by_cases hA : rowHasValueAt row k = true
      · simp [hA, hbeq]
      · by_cases hB : rowHasKey row k = true <;>
          simp [hA, hB, hbeq, hstep]

theorem foldRow_keys (row : Row) : ∀ (h : List (String × Nat)),
    (row.foldl hdrStep h).map Prod.fst = addKeysFirstSeen (h.map Prod.fst) row := by
  induction row with
  | nil => intro h; simp [addKeysFirstSeen]
  | cons kv row ih =>
    intro h
    rw [List.foldl_cons, ih]
    simp only [addKeysFirstSeen, hdrStep]
    rw [keys_update]

theorem foldRow_keys_nodup (row : Row) : ∀ (h : List (String × Nat)),
    (h.map Prod.fst).Nodup → ((row.foldl hdrStep h).map Prod.fst).Nodup := by
  induction row with
  | nil => intro h hh; simpa using hh
  | cons kv row ih =>
    intro h hh
    rw [List.foldl_cons]
    exact ih _ (keys_update_nodup h kv.1 _ hh)

theorem tableHasKey_cons (row : Row) (table : List Row) (k : String) :
    tableHasKey (row :: table) k = (rowHasKey row k || tableHasKey table k) := by
  simp [tableHasKey]

theorem hasValue_cons (row : Row) (table : List Row) (k : String) :
    hasValue (row :: table) k = (rowHasValueAt row k || hasValue table k) := by
  simp [hasValue]

theorem tableHasKey_of_hasValue (table : List Row) (k : String)
    (h : hasValue table k = true) : tableHasKey table k = true := by
  simp only [hasValue, List.any_eq_true] at h
  obtain ⟨row, hmem, hrow⟩ := h
  simp only [tableHasKey, List.any_eq_true]
  exact ⟨row, hmem, rowHasKey_of_rowHasValueAt row k hrow⟩

theorem foldTable_get (table : List Row) : ∀ (h : List (String × Nat)) (k : String),
    odGet (table.foldl (fun h row => row.foldl hdrStep h) h) k =
      if hasValue table k then some 1
      else if tableHasKey table k then some ((odGet h k).getD 0)
      else odGet h k := by
  induction table with
  | nil => intro h k; simp [hasValue, tableHasKey]
  | cons row table ih =>
    intro h k
    rw [List.foldl_cons, ih, hasValue_cons, tableHasKey_cons, foldRow_get]
    by_cases hA1 : rowHasValueAt row k = true
    · by_cases hA2 : hasValue table k = true
      · simp [hA1, hA2]
      · by_cases hB2 : tableHasKey table k = true <;> simp [hA1, hA2, hB2]
    · by_cases hB1 : rowHasKey row k = true
      · by_cases hA2 : hasValue table k = true
        · simp [hA1, hA2]
        · by_cases hB2 : tableHasKey table k = true <;> simp [hA1, hB1, hA2, hB2]
      · by_cases hA2 : hasValue table k = true
        · simp [hA1, hA2]
        · by_cases hB2 : tableHasKey table k = true <;> simp [hA1, hB1, hA2, hB2]

theorem foldTable_keys (table : List Row) : ∀ (h : List (String × Nat)),
    (table.foldl (fun h row => row.foldl hdrStep h) h).map Prod.fst =
      table.foldl addKeysFirstSeen (h.map Prod.fst) := by
  induction table with
  | nil => intro h; rfl
  | cons row table ih =>
    intro h
    rw [List.foldl_cons, ih, foldRow_keys, List.foldl_cons]

theorem foldTable_keys_nodup (table : List Row) : ∀ (h : List (String × Nat)),
    (h.map Prod.fst).Nodup →
      ((table.foldl (fun h row => row.foldl hdrStep h) h).map Prod.fst).Nodup := by
  induction table with
  | nil => intro h hh; simpa using hh
  | cons row table ih =>
    intro h hh
    rw [List.foldl_cons]
    exact ih _ (foldRow_keys_nodup row h hh)

/-! ## First-seen key order and the header characterization -/

theorem mem_addKeysFirstSeen (row : Row) : ∀ (acc : List String) (k : String),
    k ∈ addKeysFirstSeen acc row ↔ (k ∈ acc ∨ rowHasKey row k = true) := by
  induction row with
  | nil => intro acc k; simp [addKeysFirstSeen, rowHasKey]
  | cons kv row ih =>
    intro acc k
    simp only [addKeysFirstSeen]
    rw [ih, rowHasKey_cons]
    by_cases hk : kv.1 = k
    · subst hk
      by_cases ha : kv.1 ∈ acc <;> simp [ha]
    · have hbeq : (kv.1 == k) = false := by simp [hk]
      have hne : ¬ k = kv.1 := fun hc => hk hc.symm
      by_cases ha : kv.1 ∈ acc <;> simp [ha, hbeq, hne]

theorem addKeysFirstSeen_nodup (row : Row) : ∀ (acc : List String),
    acc.Nodup → (addKeysFirstSeen acc row).Nodup := by
  induction row with
  | nil => intro acc h; simpa [addKeysFirstSeen] using h
  | cons kv row ih =>
    intro acc h
    simp only [addKeysFirstSeen]
    apply ih
    by_cases ha : kv.1 ∈ acc
    · simpa [ha] using h
    · simp [ha, List.nodup_append, h]

theorem mem_foldl_addKeys (table : List Row) : ∀ (acc : List String) (k : String),
    k ∈ table.foldl addKeysFirstSeen acc ↔ (k ∈ acc ∨ tableHasKey table k = true) := by
  induction table with
  | nil => intro acc k; simp [tableHasKey]
  | cons row table ih =>
    intro acc k
    rw [List.foldl_cons, ih, mem_addKeysFirstSeen, tableHasKey_cons]
    simp [or_assoc]

theorem foldl_addKeys_nodup (table : List Row) : ∀ (acc : List String),
    acc.Nodup → (table.foldl addKeysFirstSeen acc).Nodup := by
  induction table with
  | nil => intro acc h; simpa using h
  | cons row table ih =>
    intro acc h
    rw [List.foldl_cons]
    exact ih _ (addKeysFirstSeen_nodup row acc h)

theorem mem_firstSeenKeys (table : List Row) (k : String) :
    k ∈ firstSeenKeys table ↔ tableHasKey table k = true := by
  rw [firstSeenKeys, mem_foldl_addKeys]
  simp

theorem firstSeenKeys_nodup (table : List Row) : (firstSeenKeys table).Nodup :=
  foldl_addKeys_nodup table [] (List.nodup_nil)

theorem filter_map_counts : ∀ (c : List (String × Nat)),
    (c.map Prod.fst).Nodup →
      (c.filter (fun kv => kv.2 != 0)).map Prod.fst =
        (c.map Prod.fst).filter (fun k => ((odGet c k).getD 0) != 0) := by
  intro c
  induction c with
  | nil => intro _; rfl
  | cons p t ih =>
    intro hnd
    have hp : p.1 ∉ t.map Prod.fst := (List.nodup_cons.mp (by simpa using hnd)).1
    have hnd' : (t.map Prod.fst).Nodup := (List.nodup_cons.mp (by simpa using hnd)).2
    have hget : odGet (p :: t) p.1 = some p.2 := by simp [odGet]
    have hcong : (t.map Prod.fst).filter (fun k => ((odGet (p :: t) k).getD 0) != 0)
        = (t.map Prod.fst).filter (fun k => ((odGet t k).getD 0) != 0) := by
      apply List.filter_congr
      intro k hk
      have hne : ¬ p.1 = k := fun hc => hp (hc ▸ hk)
      simp [odGet, hne]
    by_cases hv : (p.2 != 0) = true <;>
      simp [List.filter_cons, hv, hget, hcong, ih hnd']

theorem build_header_eq (table : List Row) :
    build_header table = (firstSeenKeys table).filter (fun k => hasValue table k) := by
  unfold build_header
  have hnd : ((table.foldl (fun h row => row.foldl hdrStep h) []).map Prod.fst).Nodup :=
    foldTable_keys_nodup table [] (by simp)
  rw [filter_map_counts _ hnd]
  have hkeys : (table.foldl (fun h row => row.foldl hdrStep h) []).map Prod.fst
      = firstSeenKeys table := by
    rw [foldTable_keys]; rfl
  rw [hkeys]
  apply List.filter_congr
  intro k hk
  have hg := foldTable_get table [] k
  by_cases hA : hasValue table k = true
  · simp [hg, hA]
  · by_cases hB : tableHasKey table k = true <;> simp [hg, hA, hB, odGet]

theorem mem_build_header_iff (table : List Row) (k : String) :
    k ∈ build_header table ↔ hasValue table k = true := by
  rw [build_header_eq, List.mem_filter]
  constructor
  · exact fun h => h.2
  · intro h
    exact ⟨(mem_firstSeenKeys table k).mpr (tableHasKey_of_hasValue table k h), h⟩

theorem build_header_nodup (table : List Row) : (build_header table).Nodup := by
  rw [build_header_eq]
  exact (firstSeenKeys_nodup table).filter _

/-! ## Failure propagation in the table builder -/

theorem flattenValue_none_of_unknown_trait (letters : List Char) (rtraits : List String)
    (row : Row) (kv : ValKey × ValueRecord) (t : String)
    (ht : kv.1.2 = some t) (hidx : listIndex rtraits t = none) :
    flattenValue letters rtraits row kv = none := by
  simp [flattenValue, ht, hidx]

theorem foldlM_flatten_none (letters : List Char) (rtraits : List String) :
    ∀ (vs : Values) (row : Row),
      (∃ kv ∈ vs, ∃ t, kv.1.2 = some t ∧ listIndex rtraits t = none) →
      vs.foldlM (flattenValue letters rtraits) row = none := by
  intro vs
  induction vs with
  | nil => intro row h; simp at h
  | cons kv vs ih =>
    intro row h
    obtain ⟨kv', hmem, t, ht, hidx⟩ := h
    rw [List.foldlM_cons]
    rcases List.mem_cons.mp hmem with he | hmem'
    · subst he
      rw [flattenValue_none_of_unknown_trait letters rtraits row kv' t ht hidx]
      rfl
    · cases hf : flattenValue letters rtraits row kv with
      | none => rfl
      | some row' =>
        simpa [hf] using ih row' ⟨kv', hmem', t, ht, hidx⟩

theorem mapM_eq_none {α β : Type} (f : α → Option β) :
    ∀ (l : List α) (a : α), a ∈ l → f a = none → l.mapM f = none := by
  intro l
  induction l with
  | nil => intro a ha _; cases ha
  | cons x xs ih =>
    intro a ha hf
    rw [List.mapM_cons]
    rcases List.mem_cons.mp ha with he | hm
    · subst he; simp [hf]
    · cases hx : f x with
      | none => rfl
      | some b =>
        simp only [hx, ih a hm hf]
        rfl

theorem buildRow_none_of_unknown_trait (letters : List Char) (r : Report)
    (h : ∃ kv ∈ r.values, ∃ t, kv.1.2 = some t ∧ listIndex r.traits t = none) :
    buildRow letters r = none := by
  unfold buildRow
  cases hz : zipLongestRow letters r.traits with
  | none => rfl
  | some pairs => exact foldlM_flatten_none letters r.traits r.values _ h

theorem build_table_none_of_unknown_trait (rows : List Report) (r : Report)
    (hmem : r ∈ rows)
    (h : ∃ kv ∈ r.values, ∃ t, kv.1.2 = some t ∧ listIndex r.traits t = none) :
    build_table rows = none := by
  unfold build_table
  exact mapM_eq_none _ rows r hmem (buildRow_none_of_unknown_trait _ r h)

/-! ## Claim theorems -/

/-- Claim C1 (code bug): an admitted standard-error statement whose key has
no prior assignment fails with the classified orphan parse error, but an
admitted difference-test statement whose key has no prior assignment raises
Python's bare `KeyError` (`values[(name, trait)]` has no existence check),
which is not one of the classified per-file parse errors — contradicting
the claimed `OrphanDifferenceTest` classification for difference tests. -/
theorem C1_orphan_difference_test_unclassified :
    read_polygenic_out ["Trait: T1", "", "\t\tRhoG different from zero  p = 0.05"]
        = .error .keyError ∧
    PyError.isParseError .keyError = false ∧
    read_polygenic_out ["Trait: T1", "", "\t\tRhoG Std. Error:  0.05"]
        = .error .orphanStdError ∧
    PyError.isParseError .orphanStdError = true := by
  exact ⟨by decide, rfl, by decide, rfl⟩

/-- Claim C2 (counterexample): in the metadata block `Trait: T` / `A: x` /
`A: y` the label `A` occurs twice; the parser returns `A ↦ ["y"]`, not the
claimed concatenation `["x", "y"]` of the tokens after each occurrence. -/
theorem C2_counterexample :
    (read_polygenic_out_header ["Trait: T", "A: x", "A: y"]).toOption.map
        (fun mr => odGet mr.1 "A") = some (some ["y"]) ∧
    some (some (["y"] : List String)) ≠ some (some ["x", "y"]) := by
  exact ⟨by decide, by decide⟩

/-- Claim C2 (amended): a later occurrence of a label token does not append
to the already-collected token list — processing a label token rebinds that
label to a fresh empty list (`last_value = metadata[last_key] = []`),
discarding previously collected tokens, so only tokens following the final
occurrence survive. -/
theorem C2_label_reopening_resets (md : Metadata) (lastKey : Option String)
    (tok : List Char) (h : tok.getLast? = some ':') :
    odGet (procToken (md, lastKey) tok).1 (String.mk tok.dropLast) = some [] := by
  simp [procToken, h, odGet_update_self]

/-- Witness for C2's amended theorem: reopening `A:` over `A ↦ ["x"]`
rebinds `A` to the empty list. -/
theorem C2_label_reopening_resets_witness :
    odGet (procToken ([("A", ["x"])], some "A") ['A', ':']).1 "A" = some [] :=
  C2_label_reopening_resets [("A", ["x"])] (some "A") ['A', ':'] (by decide)

/-- Claim C5: name/trait disambiguation — a name matching the
`<base>(<trait>)` pattern resolves to `(base, trait)` whatever the trait
list; a non-matching name resolves to the sole trait of a one-element
trait list, and to no trait otherwise. -/
theorem C5_parse_name_disambiguation (name : String) (traits : List String) :
    (∀ bt, matchNameAndTrait name.toList = some bt →
        parse_name name traits = (String.mk bt.1, some (String.mk bt.2))) ∧
    (matchNameAndTrait name.toList = none →
      ∀ t, traits = [t] → parse_name name traits = (name, some t)) ∧
    (matchNameAndTrait name.toList = none → traits.length ≠ 1 →
      parse_name name traits = (name, none)) := by
  refine ⟨?_, ?_, ?_⟩
  · intro bt h
    have h' : matchNameAndTrait name.data = some bt := h
    simp [parse_name, h']
  · intro h t ht
    have h' : matchNameAndTrait name.data = none := h
    subst ht
    simp [parse_name, h']
  · intro h hlen
    have h' : matchNameAndTrait name.data = none := h
    cases traits with
    | nil => simp [parse_name, h']
    | cons a l =>
      cases l with
      | nil => exact absurd rfl hlen
      | cons b r => simp [parse_name, h']

/-- Witness for C5: `H2r(T1)` resolves to trait `T1` even in a two-trait
run; bare `H2r` takes the sole trait of a one-trait run and no trait in a
two-trait run. -/
theorem C5_witness :
    parse_name "H2r(T1)" ["X", "Y"] = ("H2r", some "T1") ∧
    parse_name "H2r" ["X"] = ("H2r", some "X") ∧
    parse_name "H2r" ["X", "Y"] = ("H2r", none) :=
  ⟨(C5_parse_name_disambiguation "H2r(T1)" ["X", "Y"]).1
      ("H2r".toList, "T1".toList) (by decide),
   (C5_parse_name_disambiguation "H2r" ["X"]).2.1 (by decide) "X" rfl,
   (C5_parse_name_disambiguation "H2r" ["X", "Y"]).2.2 (by decide) (by decide)⟩

/-- Claim C7: a stream whose first line equals the incomplete-run sentinel
fails with `IncompleteRun`, regardless of what follows. -/
theorem C7_sentinel_incomplete_run (rest : List String) :
    read_polygenic_out (sentinelLine :: rest) = .error .incompleteRun := by
  have h : pyStripStr sentinelLine = sentinelLine := by decide
  simp [read_polygenic_out, read_polygenic_out_header, h]

/-- Claim C8: for a non-sentinel stream the metadata parser fails with
`NoMetadata` exactly when the block up to the first blank line collected
zero labels, fails with `MissingTraitLabel` exactly when labels were
collected but none is `Trait`, and otherwise returns the accumulated
label-to-tokens mapping (with the remaining lines). -/
theorem C8_header_postconditions (lines : List String)
    (h : pyStripStr (lines.headD "") ≠ sentinelLine) :
    (read_polygenic_out_header lines = .error .noMetadata ↔
      (collectMetadata [] lines).1 = []) ∧
    (read_polygenic_out_header lines = .error .missingTraitLabel ↔
      ((collectMetadata [] lines).1 ≠ [] ∧
        odGet (collectMetadata [] lines).1 "Trait" = none)) ∧
    ((collectMetadata [] lines).1 ≠ [] →
      odGet (collectMetadata [] lines).1 "Trait" ≠ none →
      read_polygenic_out_header lines = .ok (collectMetadata [] lines)) := by
  unfold read_polygenic_out_header
  rw [if_neg h]
  by_cases he : (collectMetadata [] lines).1.isEmpty = true
  · have he' : (collectMetadata [] lines).1 = [] := by
      simpa using he
    simp [he, he']
  · have he' : (collectMetadata [] lines).1 ≠ [] := by
      simpa using he
    by_cases ht : (odGet (collectMetadata [] lines).1 "Trait").isNone = true
    · have ht' : odGet (collectMetadata [] lines).1 "Trait" = none := by
        simpa using ht
      simp [he, ht, he', ht']
    · have ht' : odGet (collectMetadata [] lines).1 "Trait" ≠ none := by
        simpa using ht
      simp [he, ht, he', ht']

/-- Witness for C8: a one-label, no-`Trait` stream fails with
`MissingTraitLabel`. -/
theorem C8_witness :
    read_polygenic_out_header ["Alpha: x"] = .error .missingTraitLabel :=
  ((C8_header_postconditions ["Alpha: x"] (by decide)).2.1).mpr (by decide)

/-- Claim C3: the computed header is exactly the set of keys with at least
one non-absent value in some row — each appearing exactly once, ordered by
the position of the key's first appearance across the rows scanned in
order; keys absent in every row never appear. -/
theorem C3_header_complete_ordered_unique (table : List Row) :
    build_header table = (firstSeenKeys table).filter (fun k => hasValue table k) ∧
    (build_header table).Nodup ∧
    (∀ k, k ∈ build_header table ↔ hasValue table k = true) :=
  ⟨build_header_eq table, build_header_nodup table,
   fun k => mem_build_header_iff table k⟩

/-- Claim C4: the single-file round trip on `Trait: T1 T2` with the three
example statements yields exactly the claimed row; the `H2r.B.stderr` and
`H2r.B.pvalue` cells are absent and their all-absent columns are dropped
from the header. -/
theorem C4_round_trip :
    (read_polygenic_out c4Lines).map (fun r => build_table [r]) = .ok (some [c4Row]) ∧
    odGet c4Row "H2r.B.stderr" = some none ∧
    odGet c4Row "H2r.B.pvalue" = some none ∧
    build_header [c4Row] = ["A", "B", "H2r.A", "H2r.A.stderr", "H2r.A.pvalue", "H2r.B"] := by
  exact ⟨by decide, by decide, by decide, by decide⟩

/-- Claim C6: the base column key of a flattened value record is the bare
name when the trait is absent and `estimated` is false, `name.est` when
estimated with no trait, and `name.<letter>` when a trait is present — the
letter found by locating the trait in this report's own trait list and
indexing the global alphabet, with no `.est` suffix in that case; the
record then emits base key ↦ value, `.stderr`, `.pvalue`, and one
`.pNot<TitleCase comparator>` column per difference test in order. -/
theorem C6_base_key_and_emission (letters : List Char) (rtraits : List String)
    (row : Row) (name : String) (trait : Option String) (v : ValueRecord)
    (h : ∀ t, trait = some t → ∃ i, listIndex rtraits t = some i ∧ i < letters.length) :
    ∃ key : String,
      (trait = none → key = (if v.estimated then name ++ ".est" else name)) ∧
      (∀ t i, trait = some t → listIndex rtraits t = some i →
        ∃ hlt : i < letters.length, key = name ++ "." ++ String.mk [letters.get ⟨i, hlt⟩]) ∧
      flattenValue letters rtraits row ((name, trait), v) =
        some (specEmitRecord row key v) := by
  cases trait with
  | none =>
    refine ⟨if v.estimated then name ++ ".est" else name, fun _ => rfl, ?_, ?_⟩
    · intro t i ht
      exact Option.noConfusion ht
    · simp [flattenValue, specEmitRecord]
  | some t =>
    obtain ⟨i, hidx, hlt⟩ := h t rfl
    have hget : letters[i]? = some (letters.get ⟨i, hlt⟩) := by
      rw [List.getElem?_eq_getElem hlt]
      rfl
    refine ⟨name ++ "." ++ String.mk [letters.get ⟨i, hlt⟩], ?_, ?_, ?_⟩
    · intro hc
      exact Option.noConfusion hc
    · intro t' i' ht' hidx'
      have htt : t = t' := by injection ht'
      subst htt
      rw [hidx] at hidx'
      have hii : i = i' := by injection hidx'
      subst hii
      exact ⟨hlt, rfl⟩
    · simp [flattenValue, hidx, hget, specEmitRecord]

/-- Witness for C6 at a concrete record: name `H2r`, trait `T2` in trait
list `[T1, T2]`, alphabet `[A, B]`, one `zero` difference test. -/
theorem C6_witness :
    ∃ key : String,
      ((some "T2" : Option String) = none →
        key = (if c6Record.estimated then "H2r" ++ ".est" else "H2r")) ∧
      (∀ t i, (some "T2" : Option String) = some t → listIndex ["T1", "T2"] t = some i →
        ∃ hlt : i < (['A', 'B'] : List Char).length,
          key = "H2r" ++ "." ++ String.mk [(['A', 'B'] : List Char).get ⟨i, hlt⟩]) ∧
      flattenValue ['A', 'B'] ["T1", "T2"] [] (("H2r", some "T2"), c6Record) =
        some (specEmitRecord [] key c6Record) :=
  C6_base_key_and_emission ['A', 'B'] ["T1", "T2"] [] "H2r" (some "T2") c6Record
    (by
      intro t ht
      have htt : "T2" = t := by injection ht
      subst htt
      exact ⟨1, by decide, by decide⟩)

/-- Claim C9: the statement parser accepts `H2r(Bogus) is 0.5` although
`Bogus` is not among the run's traits (the file parses to `.ok`, no
classified parse error), and any table build whose input contains the
resulting report fails — the positional lookup of the trait in the
report's trait list finds nothing — instead of producing a row. -/
theorem C9_unknown_trait_crashes_builder :
    read_polygenic_out c9Lines = .ok c9Report ∧
    (("H2r", some "Bogus"), c9Record) ∈ c9Report.values ∧
    listIndex c9Report.traits "Bogus" = none ∧
    (∀ rows : List Report, c9Report ∈ rows → build_table rows = none) := by
  refine ⟨by decide, by decide, by decide, ?_⟩
  intro rows hmem
  exact build_table_none_of_unknown_trait rows c9Report hmem
    ⟨(("H2r", some "Bogus"), c9Record), by decide, "Bogus", rfl, by decide⟩

/-- Witness for C9: the table build over exactly the accepted report
fails. -/
theorem C9_witness : build_table [c9Report] = none :=
  C9_unknown_trait_crashes_builder.2.2.2 [c9Report] (List.mem_singleton.mpr rfl)

/-- Claim C10: a metadata label collected with zero value tokens produces
the cell `""` (the empty join), which counts as non-absent — in general a
row binding a key to `some ""` keeps that key in the header, and the
formatter emits `""` verbatim instead of the NA placeholder; concretely,
the `Empty:` label column survives into the header and prints as an empty
field. -/
theorem C10_empty_label_column (na : String) (hna : na ≠ "") :
    (∀ (table : List Row) (row : Row) (k : String),
      row ∈ table → (k, some "") ∈ row → k ∈ build_header table) ∧
    formatCell na (some "") = "" ∧
    formatCell na (some "") ≠ na ∧
    read_polygenic_out c10Lines = .ok c10Report ∧
    odGet c10Report.metadata "Empty" = some [] ∧
    joinSpace [] = "" ∧
    build_table [c10Report] = some [c10Row] ∧
    odGet c10Row "Empty" = some (some "") ∧
    "Empty" ∈ build_header [c10Row] ∧
    formatRow na (build_header [c10Row]) c10Row = ["T1", ""] := by
  refine ⟨?_, rfl, ?_, by decide, by decide, rfl, by decide, by decide, ?_, rfl⟩
  · intro table row k hrow hkv
    apply (mem_build_header_iff table k).mpr
    simp only [hasValue, List.any_eq_true]
    refine ⟨row, hrow, ?_⟩
    simp only [rowHasValueAt, List.any_eq_true]
    exact ⟨(k, some ""), hkv, by simp⟩
  · exact fun hc => hna hc.symm
  · exact (mem_build_header_iff [c10Row] "Empty").mpr (by decide)

/-- Witness for C10 at the default NA value `"NA"`. -/
theorem C10_witness :
    formatCell "NA" (some "") = "" ∧
    formatCell "NA" (some "") ≠ "NA" ∧
    formatRow "NA" (build_header [c10Row]) c10Row = ["T1", ""] := by
  have h := C10_empty_label_column "NA" (by decide)
  exact ⟨h.2.1, h.2.2.1, h.2.2.2.2.2.2.2.2.2⟩

end TabulateSolar
